import Mathlib

/-!
Verification of the two `rateLimiterWithJitter` implementations of this
repository (pkg/controller rate limiters, "Variant A" and "Variant B").

Modelling conventions (shallow embedding):
* `time.Duration` and `int64` nanosecond counts are modelled as `ℤ`;
  the Go `int` field `exp` is likewise modelled as `ℤ`.
* `float64` arithmetic is modelled as exact rational arithmetic on `ℚ`.
* the Go conversion `int64(f)` of a `float64` value truncates toward zero;
  it is modelled by `goTrunc`.
* `r.rd.Float64()` draws a sample in `[0, 1)`; the sample is passed to
  `When` as an explicit argument `percentage`.
* the mutex only serialises calls; operations are modelled as pure
  functions, mutating operations return the new state, and the read-only
  operations return a `value × state` pair.
* Variant B embeds a `workqueue.RateLimiter` (vendor code); the duration
  returned by its `When(item)` call is abstracted as an explicit argument
  `wrapped` of Variant B's `When`, and its internal per-item state is left
  out of the modelled state.
-/

namespace RateLimiterProof

/-- Truncation toward zero: the Go conversion `int64(f)` for a `float64`
value `f` in range. -/
def goTrunc (q : ℚ) : ℤ := if 0 ≤ q then ⌊q⌋ else -⌊-q⌋

/-- The constant `math.MaxInt64`, as an exact rational. -/
def maxInt64 : ℚ := 9223372036854775807

namespace VariantA

/-- The state of Variant A's limiter (`rateLimiterWithJitter` with the
`exp` field); `rd` and `mutex` are omitted per the modelling conventions. -/
structure rateLimiterWithJitter where
  exp : ℤ
  baseDelay : ℤ
  maxDelay : ℤ
deriving DecidableEq

/-- Variant A's `When()`. The delay is `baseDelay * 2^exp` computed in
floating point; if it overflows `int64` or its truncation exceeds
`maxDelay`, the call returns `maxDelay` at once. Otherwise a random
`percentage` scales `baseDelay` into a jitter that is subtracted, with the
result truncated to whole nanoseconds and floored at zero. -/
def When (r : rateLimiterWithJitter) (percentage : ℚ) :
    ℤ × rateLimiterWithJitter :=
  let delay : ℚ := (r.baseDelay : ℚ) * (2 : ℚ) ^ r.exp
  if delay > maxInt64 ∨ goTrunc delay > r.maxDelay then
    (r.maxDelay, r)
  else
    let jitter : ℚ := (r.baseDelay : ℚ) * percentage
    let backoff : ℚ := delay - jitter
    if backoff ≤ 0 then ((0 : ℤ), r) else (goTrunc backoff, r)

/-- Variant A's `Failure()`: increment the exponent. -/
def Failure (r : rateLimiterWithJitter) : rateLimiterWithJitter :=
  { r with exp := r.exp + 1 }

/-- Variant A's `Success()`: decrement the exponent when it is positive. -/
def Success (r : rateLimiterWithJitter) : rateLimiterWithJitter :=
  if r.exp > 0 then { r with exp := r.exp - 1 } else r

/-- Variant A's `Exp()` accessor: return the exponent, state unchanged. -/
def Exp (r : rateLimiterWithJitter) : ℤ × rateLimiterWithJitter :=
  (r.exp, r)

/-- Variant A's constructor `newItemExponentialFailureRateLimiterWithJitter`:
the `exp` field starts at its zero value. -/
def newItemExponentialFailureRateLimiterWithJitter
    (baseDelay maxDelay : ℤ) : rateLimiterWithJitter :=
  { exp := 0, baseDelay := baseDelay, maxDelay := maxDelay }

/-- States of Variant A reachable from a fresh instance by any sequence of
`When`, `Failure`, `Success` and `Exp` calls. -/
inductive Reachable (baseDelay maxDelay : ℤ) :
    rateLimiterWithJitter → Prop where
  | fresh :
      Reachable baseDelay maxDelay
        (newItemExponentialFailureRateLimiterWithJitter baseDelay maxDelay)
  | failureStep {r} : Reachable baseDelay maxDelay r →
      Reachable baseDelay maxDelay (Failure r)
  | successStep {r} : Reachable baseDelay maxDelay r →
      Reachable baseDelay maxDelay (Success r)
  | whenStep {r} (p : ℚ) : Reachable baseDelay maxDelay r →
      Reachable baseDelay maxDelay (When r p).2
  | expStep {r} : Reachable baseDelay maxDelay r →
      Reachable baseDelay maxDelay (Exp r).2

/-- Spec-side reading of Variant A's `When()` in which the clamp only
bounds the delay and the jitter subtraction still happens afterwards, even
when the delay was clamped to `maxDelay`. This definition follows the
spec's words and is compared against `When`, which is translated from the
code. -/
def whenSpecJitterAfterClamp (r : rateLimiterWithJitter)
    (percentage : ℚ) : ℤ :=
  let delayRaw : ℚ := (r.baseDelay : ℚ) * (2 : ℚ) ^ r.exp
  let delay : ℚ :=
    if delayRaw > maxInt64 ∨ goTrunc delayRaw > r.maxDelay then
      (r.maxDelay : ℚ)
    else delayRaw
  let jitter : ℚ := (r.baseDelay : ℚ) * percentage
  let backoff : ℚ := delay - jitter
  if backoff ≤ 0 then 0 else goTrunc backoff

end VariantA

namespace VariantB

/-- The state of Variant B's limiter (`rateLimiterWithJitter` wrapping a
`workqueue.RateLimiter`); the wrapped limiter, `rd` and `mutex` are
omitted per the modelling conventions. -/
structure rateLimiterWithJitter where
  baseDelay : ℤ
  maxDelay : ℤ
  alpha : ℚ
  scaleFactor : ℚ
  failureRate : ℚ
deriving DecidableEq

/-- Variant B's `When(item)`. The wrapped limiter's delay (`wrapped`) is
scaled by `scaleFactor` and truncated, clamped to `maxDelay`, and a
truncated jitter of at most `baseDelay` is subtracted, flooring at zero. -/
def When (r : rateLimiterWithJitter) (wrapped : ℤ) (percentage : ℚ) :
    ℤ × rateLimiterWithJitter :=
  let delay0 : ℤ := goTrunc ((wrapped : ℚ) * r.scaleFactor)
  let delay : ℤ := if delay0 > r.maxDelay then r.maxDelay else delay0
  let jitter : ℤ := goTrunc ((r.baseDelay : ℚ) * percentage)
  if jitter > delay then ((0 : ℤ), r) else (delay - jitter, r)

/-- Variant B's `ScaleFactor()` accessor: return the factor, state
unchanged. -/
def ScaleFactor (r : rateLimiterWithJitter) : ℚ × rateLimiterWithJitter :=
  (r.scaleFactor, r)

/-- Variant B's `Success(success)`: fold the outcome into the exponential
moving average `failureRate`, then recompute `scaleFactor`. -/
def Success (r : rateLimiterWithJitter) (success : Bool) :
    rateLimiterWithJitter :=
  let newSample : ℚ := if success then 0 else 1
  let failureRate : ℚ := r.alpha * newSample + (1 - r.alpha) * r.failureRate
  let scaleFactor : ℚ :=
    failureRate * ((r.maxDelay : ℚ) / (r.baseDelay : ℚ) - 1) + 1
  { r with failureRate := failureRate, scaleFactor := scaleFactor }

/-- Variant B's constructor `newItemExponentialFailureRateLimiterWithJitter`:
`failureRate` starts at 0 and `scaleFactor` at 1. -/
def newItemExponentialFailureRateLimiterWithJitter
    (baseDelay maxDelay : ℤ) (alpha : ℚ) : rateLimiterWithJitter :=
  { baseDelay := baseDelay, maxDelay := maxDelay, alpha := alpha,
    scaleFactor := 1, failureRate := 0 }

/-- States of Variant B reachable from a fresh instance by any sequence of
`When`, `Success` and `ScaleFactor` calls. -/
inductive Reachable (baseDelay maxDelay : ℤ) (alpha : ℚ) :
    rateLimiterWithJitter → Prop where
  | fresh :
      Reachable baseDelay maxDelay alpha
        (newItemExponentialFailureRateLimiterWithJitter baseDelay maxDelay
          alpha)
  | successStep {r} (b : Bool) : Reachable baseDelay maxDelay alpha r →
      Reachable baseDelay maxDelay alpha (Success r b)
  | whenStep {r} (wrapped : ℤ) (p : ℚ) :
      Reachable baseDelay maxDelay alpha r →
      Reachable baseDelay maxDelay alpha (When r wrapped p).2
  | scaleFactorStep {r} : Reachable baseDelay maxDelay alpha r →
      Reachable baseDelay maxDelay alpha (ScaleFactor r).2

/-- Iterated `Success` calls with a fixed outcome, as in the loops of the
repository's `TestRateLimiter`. -/
def iterSuccess (b : Bool) : ℕ → rateLimiterWithJitter →
    rateLimiterWithJitter
  | 0, r => r
  | n + 1, r => iterSuccess b n (Success r b)

end VariantB

theorem goTrunc_of_nonneg {q : ℚ} (h : 0 ≤ q) : goTrunc q = ⌊q⌋ := by
  simp [goTrunc, h]

theorem goTrunc_nonneg {q : ℚ} (h : 0 ≤ q) : 0 ≤ goTrunc q := by
  rw [goTrunc_of_nonneg h]
  exact Int.floor_nonneg.mpr h

theorem goTrunc_mono_of_nonneg {a b : ℚ} (ha : 0 ≤ a) (hab : a ≤ b) :
    goTrunc a ≤ goTrunc b := by
  rw [goTrunc_of_nonneg ha, goTrunc_of_nonneg (ha.trans hab)]
  exact Int.floor_le_floor hab

theorem goTrunc_lt_int {q : ℚ} {n : ℤ} (h0 : 0 ≤ q) (h : q < (n : ℚ)) :
    goTrunc q < n := by
  rw [goTrunc_of_nonneg h0]
  exact Int.floor_lt.mpr h

theorem le_goTrunc_int {q : ℚ} {n : ℤ} (h : (n : ℚ) ≤ q) (h0 : 0 ≤ q) :
    n ≤ goTrunc q := by
  rw [goTrunc_of_nonneg h0]
  exact Int.le_floor.mpr h

theorem whenA_snd (r : VariantA.rateLimiterWithJitter) (p : ℚ) :
    (VariantA.When r p).2 = r := by
  simp only [VariantA.When]
  split
  · rfl
  · split <;> rfl

theorem reachableA_fields {baseDelay maxDelay : ℤ}
    {r : VariantA.rateLimiterWithJitter}
    (h : VariantA.Reachable baseDelay maxDelay r) :
    r.baseDelay = baseDelay ∧ r.maxDelay = maxDelay ∧ 0 ≤ r.exp := by
  induction h with
  | fresh => exact ⟨rfl, rfl, le_refl 0⟩
  | failureStep _ ih =>
      exact ⟨ih.1, ih.2.1, by have := ih.2.2; simp only [VariantA.Failure]; omega⟩
  | successStep _ ih =>
      obtain ⟨h1, h2, h3⟩ := ih
      unfold VariantA.Success
      split
      next h => exact ⟨h1, h2, by dsimp only; omega⟩
      next h => exact ⟨h1, h2, h3⟩
  | whenStep p _ ih => rwa [whenA_snd]
  | expStep _ ih => exact ih

theorem whenB_snd (r : VariantB.rateLimiterWithJitter) (w : ℤ) (p : ℚ) :
    (VariantB.When r w p).2 = r := by
  simp only [VariantB.When]
  split <;> split <;> rfl

theorem reachableB_fields {baseDelay maxDelay : ℤ} {alpha : ℚ}
    {r : VariantB.rateLimiterWithJitter}
    (h : VariantB.Reachable baseDelay maxDelay alpha r) :
    r.baseDelay = baseDelay ∧ r.maxDelay = maxDelay ∧ r.alpha = alpha := by
  induction h with
  | fresh => exact ⟨rfl, rfl, rfl⟩
  | successStep b _ ih => exact ih
  | whenStep w q _ ih => rwa [whenB_snd]
  | scaleFactorStep _ ih => exact ih

theorem whenA_bounds {r : VariantA.rateLimiterWithJitter} {p : ℚ}
    (hbase : 0 < r.baseDelay) (hbm : r.baseDelay ≤ r.maxDelay) (hp : 0 ≤ p) :
    0 ≤ (VariantA.When r p).1 ∧ (VariantA.When r p).1 ≤ r.maxDelay := by
  have hmax : (0 : ℤ) ≤ r.maxDelay := le_trans hbase.le hbm
  have hbq : (0 : ℚ) ≤ (r.baseDelay : ℚ) := by exact_mod_cast hbase.le
  have hdelay : (0 : ℚ) ≤ (r.baseDelay : ℚ) * (2 : ℚ) ^ r.exp := by positivity
  simp only [VariantA.When]
  split
  next h => exact ⟨hmax, le_refl _⟩
  next h =>
    push_neg at h
    split
    next h2 => exact ⟨le_refl _, hmax⟩
    next h2 =>
      push_neg at h2
      have hjit : (0 : ℚ) ≤ (r.baseDelay : ℚ) * p := mul_nonneg hbq hp
      have hble : (r.baseDelay : ℚ) * (2 : ℚ) ^ r.exp - (r.baseDelay : ℚ) * p
          ≤ (r.baseDelay : ℚ) * (2 : ℚ) ^ r.exp := by linarith
      refine ⟨goTrunc_nonneg h2.le, le_trans ?_ h.2⟩
      exact goTrunc_mono_of_nonneg h2.le hble

theorem whenB_bounds (r : VariantB.rateLimiterWithJitter) (w : ℤ) {p : ℚ}
    (hbase : 0 < r.baseDelay) (hbm : r.baseDelay ≤ r.maxDelay) (hp : 0 ≤ p) :
    0 ≤ (VariantB.When r w p).1 ∧ (VariantB.When r w p).1 ≤ r.maxDelay := by
  have hmax : (0 : ℤ) ≤ r.maxDelay := le_trans hbase.le hbm
  have hbq : (0 : ℚ) ≤ (r.baseDelay : ℚ) := by exact_mod_cast hbase.le
  have hj : 0 ≤ goTrunc ((r.baseDelay : ℚ) * p) :=
    goTrunc_nonneg (mul_nonneg hbq hp)
  simp only [VariantB.When]
  split
  next hd =>
    split
    next hjd => exact ⟨le_refl _, hmax⟩
    next hjd => push_neg at hjd; constructor <;> omega
  next hd =>
    push_neg at hd
    split
    next hjd => exact ⟨le_refl _, hmax⟩
    next hjd => push_neg at hjd; constructor <;> omega

/-- C1: every delay that `When` returns — Variant A's `When()` and Variant
B's `When(item)` — on any reachable limiter state built from a
configuration with `0 < baseDelay ≤ maxDelay`, and for any random sample
in `[0, 1)`, lies in the interval `[0, maxDelay]`. -/
theorem C1_when_in_range (baseDelay maxDelay : ℤ) (alpha : ℚ)
    (hbase : 0 < baseDelay) (hbm : baseDelay ≤ maxDelay) :
    (∀ r, VariantA.Reachable baseDelay maxDelay r →
      ∀ p : ℚ, 0 ≤ p → p < 1 →
        0 ≤ (VariantA.When r p).1 ∧ (VariantA.When r p).1 ≤ maxDelay) ∧
    (∀ r, VariantB.Reachable baseDelay maxDelay alpha r →
      ∀ (wrapped : ℤ) (p : ℚ), 0 ≤ p → p < 1 →
        0 ≤ (VariantB.When r wrapped p).1 ∧
          (VariantB.When r wrapped p).1 ≤ maxDelay) := by
  constructor
  · intro r hr p hp0 hp1
    obtain ⟨h1, h2, _⟩ := reachableA_fields hr
    have := whenA_bounds (r := r) (p := p) (by omega) (by omega) hp0
    rw [h2] at this
    exact this
  · intro r hr wrapped p hp0 hp1
    obtain ⟨h1, h2, _⟩ := reachableB_fields hr
    have := whenB_bounds r wrapped (by omega) (by omega) hp0
    rw [h2] at this
    exact this

/-- Witness for C1 at the concrete configuration `baseDelay = 1`,
`maxDelay = 4` on fresh instances with sample `1/2`. -/
theorem C1_when_in_range_witness :
    (0 ≤ (VariantA.When
        (VariantA.newItemExponentialFailureRateLimiterWithJitter 1 4)
        (1/2)).1 ∧
      (VariantA.When
        (VariantA.newItemExponentialFailureRateLimiterWithJitter 1 4)
        (1/2)).1 ≤ 4) ∧
    (0 ≤ (VariantB.When
        (VariantB.newItemExponentialFailureRateLimiterWithJitter 1 4 (1/20))
        1 (1/2)).1 ∧
      (VariantB.When
        (VariantB.newItemExponentialFailureRateLimiterWithJitter 1 4 (1/20))
        1 (1/2)).1 ≤ 4) :=
  ⟨(C1_when_in_range 1 4 (1/20) (by norm_num) (by norm_num)).1 _
      VariantA.Reachable.fresh (1/2) (by norm_num) (by norm_num),
    (C1_when_in_range 1 4 (1/20) (by norm_num) (by norm_num)).2 _
      VariantB.Reachable.fresh 1 (1/2) (by norm_num) (by norm_num)⟩

/-- C2 counterexample: at `exp = 3`, `baseDelay = 1s`, `maxDelay = 5s` the
computed delay (8s) clamps, and the code returns `maxDelay` untouched
(5000000000 ns) while the claimed jitter-after-clamp computation with
sample `1/2` would return 4500000000 ns. -/
theorem C2_counterexample :
    (VariantA.When ⟨3, 1000000000, 5000000000⟩ (1/2)).1 = 5000000000 ∧
    VariantA.whenSpecJitterAfterClamp ⟨3, 1000000000, 5000000000⟩ (1/2) =
      4500000000 ∧
    (VariantA.When ⟨3, 1000000000, 5000000000⟩ (1/2)).1 ≠
      VariantA.whenSpecJitterAfterClamp ⟨3, 1000000000, 5000000000⟩ (1/2) := by
  refine ⟨?_, ?_, ?_⟩ <;>
    norm_num [VariantA.When, VariantA.whenSpecJitterAfterClamp, goTrunc,
      maxInt64]

/-- C2 (amended): Variant A's `When()` computes `delay = baseDelay * 2^exp`;
if `delay` overflows the duration type or its truncation exceeds
`maxDelay`, the call returns `maxDelay` immediately and no jitter is
subtracted; otherwise `jitter = baseDelay * percentage` gives
`backoff = delay - jitter`, and the result is zero when `backoff ≤ 0` and
otherwise `backoff` truncated to whole nanoseconds. -/
theorem C2_when_description (r : VariantA.rateLimiterWithJitter) (p : ℚ) :
    ((r.baseDelay : ℚ) * (2 : ℚ) ^ r.exp > maxInt64 ∨
        goTrunc ((r.baseDelay : ℚ) * (2 : ℚ) ^ r.exp) > r.maxDelay →
      (VariantA.When r p).1 = r.maxDelay) ∧
    (¬((r.baseDelay : ℚ) * (2 : ℚ) ^ r.exp > maxInt64 ∨
        goTrunc ((r.baseDelay : ℚ) * (2 : ℚ) ^ r.exp) > r.maxDelay) →
      ((r.baseDelay : ℚ) * (2 : ℚ) ^ r.exp - (r.baseDelay : ℚ) * p ≤ 0 →
        (VariantA.When r p).1 = 0) ∧
      (¬((r.baseDelay : ℚ) * (2 : ℚ) ^ r.exp - (r.baseDelay : ℚ) * p ≤ 0) →
        (VariantA.When r p).1 =
          goTrunc ((r.baseDelay : ℚ) * (2 : ℚ) ^ r.exp -
            (r.baseDelay : ℚ) * p))) := by
  refine ⟨fun h => ?_, fun h => ⟨fun h2 => ?_, fun h2 => ?_⟩⟩
  · simp only [VariantA.When, if_pos h]
  · simp only [VariantA.When, if_neg h, if_pos h2]
  · simp only [VariantA.When, if_neg h, if_neg h2]

/-- Witness for C2's amended theorem: the clamped branch at the
counterexample state, and the normal branch on a fresh small state. -/
theorem C2_when_description_witness :
    (VariantA.When ⟨3, 1000000000, 5000000000⟩ (1/4)).1 = 5000000000 ∧
    (VariantA.When ⟨0, 4, 8⟩ (1/2)).1 = goTrunc ((4 : ℚ) * (2:ℚ)^(0:ℤ) - 4 * (1/2)) := by
  constructor
  · have h := (C2_when_description ⟨3, 1000000000, 5000000000⟩ (1/4)).1
      (by norm_num [goTrunc, maxInt64])
    exact h
  · have h := ((C2_when_description ⟨0, 4, 8⟩ (1/2)).2
      (by norm_num [goTrunc, maxInt64])).2 (by norm_num)
    exact h

/-- C3: Variant A's `Failure()` adds exactly 1 to `exp` with no cap, and
`Success()` subtracts exactly 1 unless `exp` is already 0, in which case it
stays 0; neither call changes `baseDelay` or `maxDelay`. -/
theorem C3_failure_success_step (r : VariantA.rateLimiterWithJitter) :
    (VariantA.Failure r).exp = r.exp + 1 ∧
    (VariantA.Failure r).baseDelay = r.baseDelay ∧
    (VariantA.Failure r).maxDelay = r.maxDelay ∧
    (0 < r.exp → (VariantA.Success r).exp = r.exp - 1) ∧
    (r.exp = 0 → (VariantA.Success r).exp = 0) ∧
    (VariantA.Success r).baseDelay = r.baseDelay ∧
    (VariantA.Success r).maxDelay = r.maxDelay := by
  refine ⟨rfl, rfl, rfl, fun h => ?_, fun h => ?_, ?_, ?_⟩
  · unfold VariantA.Success
    rw [if_pos h]
  · unfold VariantA.Success
    rw [if_neg (by omega)]
    exact h
  · unfold VariantA.Success
    split <;> rfl
  · unfold VariantA.Success
    split <;> rfl

/-- Witness for C3: a `Success()` call at `exp = 1` reaches 0, and at
`exp = 0` stays 0. -/
theorem C3_failure_success_step_witness :
    (VariantA.Success ⟨1, 1, 4⟩).exp = 0 ∧
    (VariantA.Success ⟨0, 1, 4⟩).exp = 0 :=
  ⟨by have h := (C3_failure_success_step ⟨1, 1, 4⟩).2.2.2.1 (by norm_num)
      simpa using h,
    (C3_failure_success_step ⟨0, 1, 4⟩).2.2.2.2.1 rfl⟩

/-- C4: the exponent of Variant A is 0 on a fresh instance and stays
non-negative across every reachable state. -/
theorem C4_exp_nonneg (baseDelay maxDelay : ℤ) :
    (VariantA.newItemExponentialFailureRateLimiterWithJitter baseDelay
      maxDelay).exp = 0 ∧
    ∀ r, VariantA.Reachable baseDelay maxDelay r → 0 ≤ r.exp :=
  ⟨rfl, fun _ hr => (reachableA_fields hr).2.2⟩

/-- Witness for C4 after one `Failure()` call on a fresh instance. -/
theorem C4_exp_nonneg_witness :
    0 ≤ (VariantA.Failure
      (VariantA.newItemExponentialFailureRateLimiterWithJitter 1 4)).exp :=
  (C4_exp_nonneg 1 4).2 _
    (VariantA.Reachable.failureStep VariantA.Reachable.fresh)

/-- C5: Variant B's `Success(success)` sets
`failureRate = alpha*sample + (1-alpha)*failureRate` with `sample = 0` on
success and `1` on failure, then sets
`scaleFactor = failureRate*(maxDelay/baseDelay - 1) + 1`; in particular
`scaleFactor = 1` at `failureRate = 0` and `maxDelay/baseDelay` at
`failureRate = 1`. -/
theorem C5_success_update (r : VariantB.rateLimiterWithJitter) (b : Bool) :
    (VariantB.Success r b).failureRate =
      r.alpha * (if b then (0 : ℚ) else 1) + (1 - r.alpha) * r.failureRate ∧
    (VariantB.Success r b).scaleFactor =
      (VariantB.Success r b).failureRate *
        ((r.maxDelay : ℚ) / (r.baseDelay : ℚ) - 1) + 1 ∧
    ((VariantB.Success r b).failureRate = 0 →
      (VariantB.Success r b).scaleFactor = 1) ∧
    ((VariantB.Success r b).failureRate = 1 →
      (VariantB.Success r b).scaleFactor =
        (r.maxDelay : ℚ) / (r.baseDelay : ℚ)) := by
  have hsf : (VariantB.Success r b).scaleFactor =
      (VariantB.Success r b).failureRate *
        ((r.maxDelay : ℚ) / (r.baseDelay : ℚ) - 1) + 1 := rfl
  refine ⟨rfl, hsf, fun h => ?_, fun h => ?_⟩
  · rw [hsf, h]; ring
  · rw [hsf, h]; ring

/-- Witness for C5: a success sample on a zero failure rate keeps the
scale factor at 1. -/
theorem C5_success_update_witness :
    (VariantB.Success ⟨1, 10, 1/2, 1, 0⟩ true).scaleFactor = 1 :=
  (C5_success_update ⟨1, 10, 1/2, 1, 0⟩ true).2.2.1
    (by norm_num [VariantB.Success])

/-- C6: under `0 < baseDelay ≤ maxDelay` and `0 < alpha ≤ 1`, every state
of Variant B reachable from a fresh instance satisfies
`0 ≤ failureRate ≤ 1` and `1 ≤ scaleFactor ≤ maxDelay/baseDelay`. -/
theorem C6_invariantB (baseDelay maxDelay : ℤ) (alpha : ℚ)
    (hbase : 0 < baseDelay) (hbm : baseDelay ≤ maxDelay)
    (ha0 : 0 < alpha) (ha1 : alpha ≤ 1) :
    ∀ r, VariantB.Reachable baseDelay maxDelay alpha r →
      0 ≤ r.failureRate ∧ r.failureRate ≤ 1 ∧
      1 ≤ r.scaleFactor ∧
      r.scaleFactor ≤ (maxDelay : ℚ) / (baseDelay : ℚ) := by
  have hbq : (0 : ℚ) < (baseDelay : ℚ) := by exact_mod_cast hbase
  have hR : (1 : ℚ) ≤ (maxDelay : ℚ) / (baseDelay : ℚ) := by
    rw [le_div_iff₀ hbq]
    rw [one_mul]
    exact_mod_cast hbm
  intro r hr
  induction hr with
  | fresh => exact ⟨le_refl 0, zero_le_one, le_refl 1, hR⟩
  | @successStep s b hrs ih =>
      obtain ⟨hf0, hf1, hs1, hsR⟩ := ih
      obtain ⟨hb, hm, hal⟩ := reachableB_fields hrs
      have hns0 : (0 : ℚ) ≤ if b then (0 : ℚ) else 1 := by
        cases b <;> norm_num
      have hns1 : (if b then (0 : ℚ) else 1) ≤ 1 := by
        cases b <;> norm_num
      have hfr : (VariantB.Success s b).failureRate =
          s.alpha * (if b then (0 : ℚ) else 1) +
            (1 - s.alpha) * s.failureRate := rfl
      have hsf : (VariantB.Success s b).scaleFactor =
          (VariantB.Success s b).failureRate *
            ((s.maxDelay : ℚ) / (s.baseDelay : ℚ) - 1) + 1 := rfl
      have hfr0 : 0 ≤ (VariantB.Success s b).failureRate := by
        rw [hfr, hal]
        have := mul_nonneg ha0.le hns0
        have := mul_nonneg (by linarith : (0 : ℚ) ≤ 1 - alpha) hf0
        linarith
      have hfr1 : (VariantB.Success s b).failureRate ≤ 1 := by
        rw [hfr, hal]
        have := mul_le_mul_of_nonneg_left hns1 ha0.le
        have := mul_le_mul_of_nonneg_left hf1
          (by linarith : (0 : ℚ) ≤ 1 - alpha)
        linarith
      have hRm : (0 : ℚ) ≤ (s.maxDelay : ℚ) / (s.baseDelay : ℚ) - 1 := by
        rw [hb, hm]; linarith
      refine ⟨hfr0, hfr1, ?_, ?_⟩
      · rw [hsf]
        have := mul_nonneg hfr0 hRm
        linarith
      · rw [hsf, hb, hm]
        have hRm2 : (0 : ℚ) ≤ (maxDelay : ℚ) / (baseDelay : ℚ) - 1 := by
          linarith
        have := mul_le_mul_of_nonneg_right hfr1 hRm2
        linarith
  | @whenStep s w q hrs ih => rwa [whenB_snd]
  | @scaleFactorStep s hrs ih => exact ih

/-- Witness for C6 after one failure sample on a fresh instance with
`baseDelay = 1`, `maxDelay = 10`, `alpha = 1/20`. -/
theorem C6_invariantB_witness :
    0 ≤ (VariantB.Success
        (VariantB.newItemExponentialFailureRateLimiterWithJitter 1 10 (1/20))
        false).failureRate ∧
    (VariantB.Success
        (VariantB.newItemExponentialFailureRateLimiterWithJitter 1 10 (1/20))
        false).failureRate ≤ 1 ∧
    1 ≤ (VariantB.Success
        (VariantB.newItemExponentialFailureRateLimiterWithJitter 1 10 (1/20))
        false).scaleFactor ∧
    (VariantB.Success
        (VariantB.newItemExponentialFailureRateLimiterWithJitter 1 10 (1/20))
        false).scaleFactor ≤ ((10 : ℤ) : ℚ) / ((1 : ℤ) : ℚ) :=
  C6_invariantB 1 10 (1/20) (by norm_num) (by norm_num) (by norm_num)
    (by norm_num) _
    (VariantB.Reachable.successStep false VariantB.Reachable.fresh)

theorem iterSuccessB_fields (b : Bool) (n : ℕ) :
    ∀ r, (VariantB.iterSuccess b n r).baseDelay = r.baseDelay ∧
      (VariantB.iterSuccess b n r).maxDelay = r.maxDelay ∧
      (VariantB.iterSuccess b n r).alpha = r.alpha := by
  induction n with
  | zero => intro r; exact ⟨rfl, rfl, rfl⟩
  | succ n ih =>
      intro r
      have hstep : VariantB.iterSuccess b (n + 1) r =
          VariantB.iterSuccess b n (VariantB.Success r b) := rfl
      rw [hstep]
      exact ih (VariantB.Success r b)

theorem iterSuccessB_false_failureRate (n : ℕ) :
    ∀ r, (VariantB.iterSuccess false n r).failureRate =
      1 - (1 - r.alpha) ^ n * (1 - r.failureRate) := by
  induction n with
  | zero =>
      intro r
      have h0 : VariantB.iterSuccess false 0 r = r := rfl
      rw [h0, pow_zero, one_mul, sub_sub_cancel]
  | succ n ih =>
      intro r
      have hstep : VariantB.iterSuccess false (n + 1) r =
          VariantB.iterSuccess false n (VariantB.Success r false) := rfl
      rw [hstep, ih (VariantB.Success r false)]
      have hal : (VariantB.Success r false).alpha = r.alpha := rfl
      have hfr : (VariantB.Success r false).failureRate =
          r.alpha * 1 + (1 - r.alpha) * r.failureRate := rfl
      rw [hal, hfr]
      ring

theorem iterSuccessB_true_failureRate (n : ℕ) :
    ∀ r, (VariantB.iterSuccess true n r).failureRate =
      (1 - r.alpha) ^ n * r.failureRate := by
  induction n with
  | zero =>
      intro r
      have h0 : VariantB.iterSuccess true 0 r = r := rfl
      rw [h0, pow_zero, one_mul]
  | succ n ih =>
      intro r
      have hstep : VariantB.iterSuccess true (n + 1) r =
          VariantB.iterSuccess true n (VariantB.Success r true) := rfl
      rw [hstep, ih (VariantB.Success r true)]
      have hal : (VariantB.Success r true).alpha = r.alpha := rfl
      have hfr : (VariantB.Success r true).failureRate =
          r.alpha * 0 + (1 - r.alpha) * r.failureRate := rfl
      rw [hal, hfr]
      ring

theorem iterSuccessB_scaleFactor (b : Bool) (n : ℕ) :
    ∀ r, (VariantB.iterSuccess b (n + 1) r).scaleFactor =
      (VariantB.iterSuccess b (n + 1) r).failureRate *
        ((r.maxDelay : ℚ) / (r.baseDelay : ℚ) - 1) + 1 := by
  induction n with
  | zero => intro r; rfl
  | succ n ih =>
      intro r
      have hstep : VariantB.iterSuccess b (n + 1 + 1) r =
          VariantB.iterSuccess b (n + 1) (VariantB.Success r b) := rfl
      rw [hstep, ih (VariantB.Success r b)]
      rfl

/-- C7: with `baseDelay = 1s`, `maxDelay = 10s` and `alpha = 0.05`, a
fresh Variant B instance has `scaleFactor = 1`; 100 consecutive
`Success(false)` calls push `scaleFactor` to at least 9.9; 100 further
`Success(true)` calls bring it back to at most 1.1; and `When` never
changes `failureRate` or `scaleFactor`. -/
theorem C7_concrete_scenario :
    (VariantB.newItemExponentialFailureRateLimiterWithJitter 1000000000
      10000000000 (1/20)).scaleFactor = 1 ∧
    (99 : ℚ) / 10 ≤ (VariantB.iterSuccess false 100
      (VariantB.newItemExponentialFailureRateLimiterWithJitter 1000000000
        10000000000 (1/20))).scaleFactor ∧
    (VariantB.iterSuccess true 100 (VariantB.iterSuccess false 100
      (VariantB.newItemExponentialFailureRateLimiterWithJitter 1000000000
        10000000000 (1/20)))).scaleFactor ≤ (11 : ℚ) / 10 ∧
    (∀ (r : VariantB.rateLimiterWithJitter) (w : ℤ) (p : ℚ),
      ((VariantB.When r w p).2).failureRate = r.failureRate ∧
      ((VariantB.When r w p).2).scaleFactor = r.scaleFactor) := by
  have h100 : (100 : ℕ) = 99 + 1 := by norm_num
  refine ⟨rfl, ?_, ?_, ?_⟩
  · rw [h100, iterSuccessB_scaleFactor,
      iterSuccessB_false_failureRate (99 + 1)]
    norm_num [VariantB.newItemExponentialFailureRateLimiterWithJitter]
  · rw [h100, iterSuccessB_scaleFactor,
      iterSuccessB_true_failureRate (99 + 1)]
    obtain ⟨hb, hm, hal⟩ := iterSuccessB_fields false (99 + 1)
      (VariantB.newItemExponentialFailureRateLimiterWithJitter 1000000000
        10000000000 (1/20))
    rw [hb, hm, hal, iterSuccessB_false_failureRate (99 + 1)]
    norm_num [VariantB.newItemExponentialFailureRateLimiterWithJitter]
  · intro r w p
    rw [whenB_snd]
    exact ⟨rfl, rfl⟩

/-- C8: there is a reachable Variant A state with positive `baseDelay`
(the fresh instance with `baseDelay = 1s`, `maxDelay = 4s`) and a random
percentage in `[0, 1)` for which `When()` returns zero: the jitter eats
the whole computed delay up to truncation. -/
theorem C8_when_zero_possible :
    VariantA.Reachable 1000000000 4000000000
      (VariantA.newItemExponentialFailureRateLimiterWithJitter 1000000000
        4000000000) ∧
    (0 : ℤ) <
      (VariantA.newItemExponentialFailureRateLimiterWithJitter 1000000000
        4000000000).baseDelay ∧
    (0 : ℚ) ≤ 1999999999/2000000000 ∧ (1999999999/2000000000 : ℚ) < 1 ∧
    (VariantA.When
      (VariantA.newItemExponentialFailureRateLimiterWithJitter 1000000000
        4000000000) (1999999999/2000000000)).1 = 0 := by
  refine ⟨VariantA.Reachable.fresh, by norm_num
    [VariantA.newItemExponentialFailureRateLimiterWithJitter],
    by norm_num, by norm_num, ?_⟩
  norm_num [VariantA.When,
    VariantA.newItemExponentialFailureRateLimiterWithJitter, goTrunc,
    maxInt64]

/-- C9: the read-only accessors `Exp()` (Variant A) and `ScaleFactor()`
(Variant B) return the stored field and leave the state unchanged, so
repeated calls return the same value. -/
theorem C9_accessors_pure (ra : VariantA.rateLimiterWithJitter)
    (rb : VariantB.rateLimiterWithJitter) :
    (VariantA.Exp ra).1 = ra.exp ∧ (VariantA.Exp ra).2 = ra ∧
    (VariantA.Exp ((VariantA.Exp ra).2)).1 = (VariantA.Exp ra).1 ∧
    (VariantB.ScaleFactor rb).1 = rb.scaleFactor ∧
    (VariantB.ScaleFactor rb).2 = rb ∧
    (VariantB.ScaleFactor ((VariantB.ScaleFactor rb).2)).1 =
      (VariantB.ScaleFactor rb).1 :=
  ⟨rfl, rfl, rfl, rfl, rfl, rfl⟩

/-- C10: in Variant B, when the wrapped limiter's delay is at least
`baseDelay > 0`, `baseDelay ≤ maxDelay`, `scaleFactor ≥ 1` and the random
sample lies in `[0, 1)`, `When(item)` returns a strictly positive
duration: the truncated jitter is strictly below `baseDelay`, which both
the clamped and the unclamped delay reach. -/
theorem C10_whenB_positive (r : VariantB.rateLimiterWithJitter)
    (wrapped : ℤ) (p : ℚ)
    (hbase : 0 < r.baseDelay) (hbm : r.baseDelay ≤ r.maxDelay)
    (hw : r.baseDelay ≤ wrapped) (hsf : 1 ≤ r.scaleFactor)
    (hp0 : 0 ≤ p) (hp1 : p < 1) :
    0 < (VariantB.When r wrapped p).1 := by
  have hwq : (0 : ℚ) ≤ (wrapped : ℚ) := by
    exact_mod_cast le_trans hbase.le hw
  have hws : (wrapped : ℚ) ≤ (wrapped : ℚ) * r.scaleFactor :=
    le_mul_of_one_le_right hwq hsf
  have hd0 : wrapped ≤ goTrunc ((wrapped : ℚ) * r.scaleFactor) :=
    le_goTrunc_int hws (le_trans hwq hws)
  have hbq : (0 : ℚ) < (r.baseDelay : ℚ) := by exact_mod_cast hbase
  have hjlt : goTrunc ((r.baseDelay : ℚ) * p) < r.baseDelay := by
    apply goTrunc_lt_int (mul_nonneg hbq.le hp0)
    nlinarith
  simp only [VariantB.When]
  split
  next hd =>
    split
    next hjd => omega
    next hjd => dsimp only; omega
  next hd =>
    split
    next hjd => omega
    next hjd => dsimp only; omega

/-- Witness for C10 on a fresh-like state with `baseDelay = 1`,
`maxDelay = 10`, `scaleFactor = 1`, wrapped delay 1 and sample `1/2`. -/
theorem C10_whenB_positive_witness :
    0 < (VariantB.When ⟨1, 10, 1/20, 1, 0⟩ 1 (1/2)).1 :=
  C10_whenB_positive ⟨1, 10, 1/20, 1, 0⟩ 1 (1/2) (by norm_num)
    (by norm_num) (by norm_num) (by norm_num) (by norm_num) (by norm_num)

end RateLimiterProof
